import Mathlib

/-!
# windows_exporter: the `tcp_local` collector (`collector/tcp_local.go`)

A shallow embedding of `TCPLocalCollector` and of its `collect` / `Collect`
methods, followed by the properties of the emitted gauge observations.

Modelling conventions.

* The result of `net.ConnectionsWithContext` is an input of the model: the pair
  `(connections, err)` the call returned, in Go's own shape (`err = none` is the
  nil error).
* A Go map is an association list with pairwise distinct keys.  The order in
  which `range` visits a map is not specified by Go; `rangeOrder` takes the
  order as an explicit choice, and every choice yields a permutation.
* The channel `ch` is the sequence of metrics sent so far; a send appends.
* The `float64` tallies start at the zero value and only ever have `1` added, so
  every reachable tally is an integer between `0` and `2^53`; it is represented
  by that integer, and `float64AddOne` is IEEE addition of `1` on that range.
-/

namespace TcpLocal

/-! ## Library constants and types used by the collector -/

/-- Value of `syscall.AF_INET` in Go's `syscall` package for windows. -/
def AF_INET : Nat := 2

/-- Value of `syscall.AF_INET6` in Go's `syscall` package for windows. -/
def AF_INET6 : Nat := 23

/-- The fields of gopsutil's `net.ConnectionStat` that the collector reads:
`Family` (a `uint32`) and `Status` (the raw state name). -/
structure ConnectionStat where
  Family : Nat
  Status : String
deriving DecidableEq, Repr

/-- A non-nil value of Go's `error` interface. -/
structure GoError where
  message : String
deriving DecidableEq, Repr

/-- The descriptor built by `prometheus.NewDesc`, as the arguments it was built from. -/
structure Desc where
  fqName : String
  help : String
  variableLabels : List String
  constLabels : List (String × String)
deriving DecidableEq, Repr

/-- The `prometheus.ValueType` enumeration. -/
inductive ValueType where
  | CounterValue
  | GaugeValue
  | UntypedValue
deriving DecidableEq, Repr

/-- A const metric, as the arguments `prometheus.MustNewConstMetric` built it from.
`value` is the float64 tally (see the conventions above). -/
structure Metric where
  desc : Desc
  valueType : ValueType
  value : Nat
  labelValues : List String
deriving DecidableEq, Repr

/-- The comma-ok map index `v, found := m[k]` of Go: `none` when the key is absent. -/
def goMapIndex {κ ν : Type} [DecidableEq κ] : List (κ × ν) → κ → Option ν
  | [], _ => none
  | (k', v) :: rest, k => if k = k' then some v else goMapIndex rest k

/-- The largest float64 up to which every integer is representable: `2^53`. -/
def float64ExactLimit : Nat := 9007199254740992

/-- The float64 sum `x + 1` for an integer `0 ≤ x ≤ 2^53`: exact below `2^53`; at
`2^53` the exact sum is not representable and rounds (ties to even) back to `2^53`. -/
def float64AddOne (x : Nat) : Nat :=
  if x < float64ExactLimit then x + 1 else x

/-- The statement `counts[status] += 1` on a `map[string]float64`: an absent key
reads as the zero value and is inserted. -/
def goMapIncr : List (String × Nat) → String → List (String × Nat)
  | [], k => [(k, float64AddOne 0)]
  | (k', v) :: rest, k =>
    if k = k' then (k', float64AddOne v) :: rest else (k', v) :: goMapIncr rest k

/-- One order in which `range` may visit the entries of a map: the `i`-th choice
says at which position the `i`-th entry is placed among the entries after it. -/
def rangeOrder {α : Type} : List Nat → List α → List α
  | k :: ks, x :: xs => (rangeOrder ks xs).take k ++ x :: (rangeOrder ks xs).drop k
  | _, l => l

/-- The function `prometheus.BuildFQName`: the non-empty parts joined by `_`. -/
def BuildFQName (namespace_ subsystem name : String) : String :=
  if name = "" then ""
  else if namespace_ ≠ "" ∧ subsystem ≠ "" then namespace_ ++ "_" ++ subsystem ++ "_" ++ name
  else if namespace_ ≠ "" then namespace_ ++ "_" ++ name
  else if subsystem ≠ "" then subsystem ++ "_" ++ name
  else name

/-- The function `prometheus.NewDesc` (a nil `constLabels` is the empty list). -/
def NewDesc (fqName help : String) (variableLabels : List String)
    (constLabels : List (String × String)) : Desc :=
  { fqName := fqName, help := help, variableLabels := variableLabels, constLabels := constLabels }

/-- The function `prometheus.MustNewConstMetric`: it panics (`none`) when the number of
label values differs from the number of label dimensions of the descriptor. -/
def MustNewConstMetric (desc : Desc) (valueType : ValueType) (value : Nat)
    (labelValues : List String) : Option Metric :=
  if labelValues.length = desc.variableLabels.length then
    some { desc := desc, valueType := valueType, value := value, labelValues := labelValues }
  else none

/-! ## `collector/tcp_local.go` -/

/-- The package variable `tcpStateMapping`. -/
def tcpStateMapping : List (String × String) :=
  [ ("ESTABLISHED", "established"),
    ("SYN_SENT", "opening"),
    ("SYN_RECEIVED", "opening"),
    ("FIN_WAIT1", "closing"),
    ("FIN_WAIT2", "closing"),
    ("TIME_WAIT", "time_wait"),
    ("CLOSED", "closing"),
    ("CLOSE_WAIT", "closing"),
    ("LAST_ACK", "closing"),
    ("LISTEN", "listening"),
    ("CLOSING", "closing"),
    ("DELETE", "closing") ]

/-- The package variable `familyMapping`. -/
def familyMapping : List (Nat × String) :=
  [ (AF_INET, "ipv4"),
    (AF_INET6, "ipv6") ]

/-- The struct `TCPLocalCollector`. -/
structure TCPLocalCollector where
  Connections : Desc
deriving DecidableEq, Repr

/-- The constructor `NewTCPLocalCollector`; `Namespace` is the package constant of the
exporter, declared outside this file. The second component is the returned error. -/
def NewTCPLocalCollector (Namespace : String) : TCPLocalCollector × Option GoError :=
  ({ Connections :=
      NewDesc (BuildFQName Namespace "tcp" "connections")
        "Number of TCP Connections per state"
        ["af", "state"]
        [] },
   none)

/-- The body of the loop `for _, con := range connections` of `collect`, on the pair
`(tcp4Counts, tcp6Counts)`. -/
def tallyStep (counts : List (String × Nat) × List (String × Nat)) (con : ConnectionStat) :
    List (String × Nat) × List (String × Nat) :=
  match goMapIndex tcpStateMapping con.Status with
  | some status =>
    if con.Family = AF_INET6 then (counts.1, goMapIncr counts.2 status)
    else (goMapIncr counts.1 status, counts.2)
  | none => counts

/-- A loop `for status, value := range counts { ch <- MustNewConstMetric(desc, GaugeValue,
value, af, status) }` over entries already put in visiting order; `none` is a panic. -/
def rangeSend (desc : Desc) (af : String) :
    List (String × Nat) → List Metric → Option (List Metric)
  | [], ch => some ch
  | (status, value) :: rest, ch =>
    match MustNewConstMetric desc ValueType.GaugeValue value [af, status] with
    | some metric => rangeSend desc af rest (ch ++ [metric])
    | none => none

/-- The method `collect`. `enumerated` is what `net.ConnectionsWithContext` returned,
`ch` the channel before the call, `order4` and `order6` the orders in which the two
`range` loops visit their maps. The result is `none` on a panic, and otherwise the
channel after the call, the returned descriptor and the returned error. -/
def collect {Ctx : Type} (c : TCPLocalCollector) (_ctx : Ctx) (ch : List Metric)
    (enumerated : List ConnectionStat × Option GoError) (order4 order6 : List Nat) :
    Option (List Metric × Desc × Option GoError) :=
  match enumerated.2 with
  | some err => some (ch, c.Connections, some err)
  | none =>
    let counts := enumerated.1.foldl tallyStep ([], [])
    match rangeSend c.Connections "ipv4" (rangeOrder order4 counts.1) ch with
    | none => none
    | some ch4 =>
      match rangeSend c.Connections "ipv6" (rangeOrder order6 counts.2) ch4 with
      | none => none
      | some ch6 => some (ch6, c.Connections, none)

/-- The method `Collect`: the channel after the call and the returned error (the call
to the logger on the error path writes nothing to the channel). -/
def Collect {Ctx : Type} (c : TCPLocalCollector) (ctx : Ctx) (ch : List Metric)
    (enumerated : List ConnectionStat × Option GoError) (order4 order6 : List Nat) :
    Option (List Metric × Option GoError) :=
  match collect c ctx ch enumerated order4 order6 with
  | none => none
  | some (ch', _, some err) => some (ch', some err)
  | some (ch', _, none) => some (ch', none)

/-! ## Quantities the properties are stated with -/

/-- The label value of a family bucket: `true` is the ipv6 bucket. -/
def bucketLabel (six : Bool) : String := if six then "ipv6" else "ipv4"

/-- The number of connections of the list whose `Family == AF_INET6` test has the
outcome `six` and whose raw `Status` is mapped to `s` by `tcpStateMapping`. -/
def bucketCount (six : Bool) (s : String) (conns : List ConnectionStat) : Nat :=
  conns.countP (fun con =>
    (decide (con.Family = AF_INET6) == six) &&
      decide (goMapIndex tcpStateMapping con.Status = some s))

/-- The number of connections of the list whose raw `Status` is a key of
`tcpStateMapping`. -/
def recognizedCount (conns : List ConnectionStat) : Nat :=
  conns.countP (fun con => (goMapIndex tcpStateMapping con.Status).isSome)

/-- Scenario A of the specification: two IPv4 connections in state ESTABLISHED and
one IPv6 connection in state LISTEN. -/
def scenarioA : List ConnectionStat :=
  [ { Family := AF_INET, Status := "ESTABLISHED" },
    { Family := AF_INET, Status := "ESTABLISHED" },
    { Family := AF_INET6, Status := "LISTEN" } ]

/-- The five normalized state labels. -/
def stateLabels : List String :=
  ["established", "opening", "closing", "time_wait", "listening"]

/-- The entry a tally map holds for a state label that `n` connections of its bucket
were mapped to: none for `n = 0`, and otherwise `n` as counted in float64. -/
def tallied (n : Nat) : Option Nat :=
  if n = 0 then none else some (min n float64ExactLimit)

/-- The metrics one `range` loop of `collect` sends for the entries it visits. -/
def sentFor (desc : Desc) (six : Bool) (entries : List (String × Nat)) : List Metric :=
  entries.map (fun p =>
    { desc := desc, valueType := ValueType.GaugeValue, value := p.2,
      labelValues := [bucketLabel six, p.1] })

/-! ## Lemmas on Go maps -/

theorem goMapIndex_incr_self (m : List (String × Nat)) (k : String) :
    goMapIndex (goMapIncr m k) k = some (float64AddOne ((goMapIndex m k).getD 0)) := by
  induction m with
  | nil => simp [goMapIncr, goMapIndex]
  | cons p rest ih =>
    obtain ⟨k', v⟩ := p
    by_cases h : k = k'
    · simp [goMapIncr, goMapIndex, h]
    · simp [goMapIncr, goMapIndex, h, ih]

theorem goMapIndex_incr_other (m : List (String × Nat)) (k j : String) (h : j ≠ k) :
    goMapIndex (goMapIncr m k) j = goMapIndex m j := by
  induction m with
  | nil => simp [goMapIncr, goMapIndex, h]
  | cons p rest ih =>
    obtain ⟨k', v⟩ := p
    by_cases hk : k = k'
    · subst hk
      simp [goMapIncr, goMapIndex, h]
    · by_cases hj : j = k'
      · simp [goMapIncr, goMapIndex, hk, hj]
      · simp [goMapIncr, goMapIndex, hk, hj, ih]

theorem keys_goMapIncr (m : List (String × Nat)) (k : String) :
    (goMapIncr m k).map Prod.fst =
      if k ∈ m.map Prod.fst then m.map Prod.fst else m.map Prod.fst ++ [k] := by
  induction m with
  | nil => simp [goMapIncr]
  | cons p rest ih =>
    obtain ⟨k', v⟩ := p
    by_cases hk : k = k'
    · simp [goMapIncr, hk]
    · by_cases hmem : k ∈ rest.map Prod.fst
      · simp [goMapIncr, hk, ih, hmem]
      · simp [goMapIncr, hk, ih, hmem]

theorem nodup_keys_goMapIncr (m : List (String × Nat)) (k : String)
    (h : (m.map Prod.fst).Nodup) : ((goMapIncr m k).map Prod.fst).Nodup := by
  rw [keys_goMapIncr]
  split
  · exact h
  · rename_i hk
    rw [List.nodup_append]
    refine ⟨h, List.nodup_singleton k, ?_⟩
    intro a ha hb
    simp only [List.mem_singleton] at hb
    exact hk (hb ▸ ha)

theorem goMapIndex_eq_none_of_not_mem {ν : Type} (m : List (String × ν)) (k : String)
    (h : k ∉ m.map Prod.fst) : goMapIndex m k = none := by
  induction m with
  | nil => rfl
  | cons p rest ih =>
    obtain ⟨k', v⟩ := p
    simp only [List.map_cons, List.mem_cons, not_or] at h
    simp [goMapIndex, h.1, ih h.2]

theorem mem_of_goMapIndex {κ ν : Type} [DecidableEq κ] (m : List (κ × ν)) (k : κ) (v : ν)
    (h : goMapIndex m k = some v) : (k, v) ∈ m := by
  induction m with
  | nil => simp [goMapIndex] at h
  | cons p rest ih =>
    obtain ⟨k', w⟩ := p
    by_cases hk : k = k'
    · simp [goMapIndex, hk] at h
      simp [hk, h]
    · simp [goMapIndex, hk] at h
      exact List.mem_cons_of_mem _ (ih h)

theorem goMapIndex_of_mem (m : List (String × Nat)) (h : (m.map Prod.fst).Nodup)
    (k : String) (v : Nat) (hm : (k, v) ∈ m) : goMapIndex m k = some v := by
  induction m with
  | nil => simp at hm
  | cons p rest ih =>
    obtain ⟨k', w⟩ := p
    simp only [List.map_cons, List.nodup_cons] at h
    rcases List.mem_cons.1 hm with heq | hrest
    · simp only [Prod.mk.injEq] at heq
      simp [goMapIndex, heq.1, heq.2]
    · have hne : k ≠ k' := by
        intro hk
        exact h.1 (hk ▸ List.mem_map_of_mem Prod.fst hrest)
      simp [goMapIndex, hne, ih h.2 hrest]

theorem mem_iff_goMapIndex (m : List (String × Nat)) (h : (m.map Prod.fst).Nodup)
    (k : String) (v : Nat) : (k, v) ∈ m ↔ goMapIndex m k = some v :=
  ⟨goMapIndex_of_mem m h k v, mem_of_goMapIndex m k v⟩

theorem rangeOrder_perm {α : Type} (order : List Nat) (l : List α) :
    (rangeOrder order l).Perm l := by
  induction order generalizing l with
  | nil => cases l <;> simp [rangeOrder]
  | cons k ks ih =>
    cases l with
    | nil => simp [rangeOrder]
    | cons x xs =>
      simp only [rangeOrder]
      have h1 : ((rangeOrder ks xs).take k ++ x :: (rangeOrder ks xs).drop k).Perm
          (x :: ((rangeOrder ks xs).take k ++ (rangeOrder ks xs).drop k)) :=
        List.perm_middle
      rw [List.take_append_drop] at h1
      exact h1.trans ((ih xs).cons x)

/-- Every visiting order of the entries is one of the choices of `rangeOrder`. -/
theorem rangeOrder_complete {α : Type} (l visited : List α) (h : visited.Perm l) :
    ∃ order, rangeOrder order l = visited := by
  induction l generalizing visited with
  | nil =>
    have hnil : visited = [] := List.Perm.eq_nil h
    exact ⟨[], by rw [hnil]; rfl⟩
  | cons x xs ih =>
    have hx : x ∈ visited := h.symm.subset (List.mem_cons_self x xs)
    obtain ⟨a, b, rfl⟩ := List.append_of_mem hx
    have hab : (a ++ b).Perm xs := (List.perm_middle.symm.trans h).cons_inv
    obtain ⟨ks, hks⟩ := ih (a ++ b) hab
    refine ⟨a.length :: ks, ?_⟩
    simp [rangeOrder, hks]

/-! ## The tally loop -/

theorem bucketCount_append_singleton (six : Bool) (s : String) (l : List ConnectionStat)
    (con : ConnectionStat) :
    bucketCount six s (l ++ [con]) = bucketCount six s l +
      if ((decide (con.Family = AF_INET6) == six) &&
        decide (goMapIndex tcpStateMapping con.Status = some s)) = true then 1 else 0 := by
  simp only [bucketCount, List.countP_append, List.countP_cons, List.countP_nil, Nat.zero_add]

theorem tallied_succ (n : Nat) :
    some (float64AddOne ((tallied n).getD 0)) = tallied (n + 1) := by
  unfold tallied float64AddOne float64ExactLimit
  by_cases h : n = 0
  · subst h
    simp
  · simp only [h, if_false, Option.getD_some, Nat.succ_ne_zero]
    congr 1
    split <;> omega

theorem tally_index (conns : List ConnectionStat) (s : String) :
    goMapIndex (conns.foldl tallyStep ([], [])).1 s = tallied (bucketCount false s conns) ∧
    goMapIndex (conns.foldl tallyStep ([], [])).2 s = tallied (bucketCount true s conns) := by
  induction conns using List.reverseRecOn with
  | nil => simp [goMapIndex, tallied, bucketCount]
  | append_singleton l con ih =>
    rw [List.foldl_append, List.foldl_cons, List.foldl_nil]
    simp only [bucketCount_append_singleton]
    generalize l.foldl tallyStep ([], []) = T at ih ⊢
    obtain ⟨ih4, ih6⟩ := ih
    unfold tallyStep
    cases hst : goMapIndex tcpStateMapping con.Status with
    | none => simp [ih4, ih6]
    | some st =>
      by_cases hf : con.Family = AF_INET6
      · by_cases hs : s = st
        · subst hs
          simp [hf, ih4, ih6, goMapIndex_incr_self, tallied_succ]
        · have hs' : st ≠ s := fun h => hs h.symm
          simp [hf, ih4, ih6, goMapIndex_incr_other _ _ _ hs, hs']
      · by_cases hs : s = st
        · subst hs
          simp [hf, ih4, ih6, goMapIndex_incr_self, tallied_succ]
        · have hs' : st ≠ s := fun h => hs h.symm
          simp [hf, ih4, ih6, goMapIndex_incr_other _ _ _ hs, hs']

theorem tally_nodup (conns : List ConnectionStat) :
    ((conns.foldl tallyStep ([], [])).1.map Prod.fst).Nodup ∧
    ((conns.foldl tallyStep ([], [])).2.map Prod.fst).Nodup := by
  induction conns using List.reverseRecOn with
  | nil => simp
  | append_singleton l con ih =>
    rw [List.foldl_append, List.foldl_cons, List.foldl_nil]
    generalize l.foldl tallyStep ([], []) = T at ih ⊢
    unfold tallyStep
    cases goMapIndex tcpStateMapping con.Status with
    | none => exact ih
    | some st =>
      by_cases hf : con.Family = AF_INET6
      · simp only [hf, if_true]
        exact ⟨ih.1, nodup_keys_goMapIncr _ _ ih.2⟩
      · simp only [hf, if_false]
        exact ⟨nodup_keys_goMapIncr _ _ ih.1, ih.2⟩

/-! ## The emission loops -/

theorem rangeSend_eq (desc : Desc) (six : Bool) (h : desc.variableLabels.length = 2)
    (entries : List (String × Nat)) (ch : List Metric) :
    rangeSend desc (bucketLabel six) entries ch = some (ch ++ sentFor desc six entries) := by
  induction entries generalizing ch with
  | nil => simp [rangeSend, sentFor]
  | cons p rest ih =>
    obtain ⟨status, value⟩ := p
    simp only [rangeSend, MustNewConstMetric, h, List.length_cons, List.length_nil, if_true]
    rw [ih]
    simp [sentFor]

theorem collect_ok {Ctx : Type} (c : TCPLocalCollector)
    (h : c.Connections.variableLabels.length = 2) (ctx : Ctx) (ch : List Metric)
    (conns : List ConnectionStat) (order4 order6 : List Nat) :
    collect c ctx ch (conns, none) order4 order6 =
      some (ch ++ (sentFor c.Connections false
              (rangeOrder order4 (conns.foldl tallyStep ([], [])).1) ++
            sentFor c.Connections true
              (rangeOrder order6 (conns.foldl tallyStep ([], [])).2)),
        c.Connections, none) := by
  have h4 : ∀ entries ch, rangeSend c.Connections "ipv4" entries ch =
      some (ch ++ sentFor c.Connections false entries) :=
    rangeSend_eq c.Connections false h
  have h6 : ∀ entries ch, rangeSend c.Connections "ipv6" entries ch =
      some (ch ++ sentFor c.Connections true entries) :=
    rangeSend_eq c.Connections true h
  simp [collect, h4, h6]

theorem mem_sentFor_tally (desc : Desc) (conns : List ConnectionStat)
    (order4 order6 : List Nat) (m : Metric) :
    m ∈ sentFor desc false (rangeOrder order4 (conns.foldl tallyStep ([], [])).1) ++
        sentFor desc true (rangeOrder order6 (conns.foldl tallyStep ([], [])).2) ↔
      ∃ six s, bucketCount six s conns ≠ 0 ∧
        m = { desc := desc, valueType := ValueType.GaugeValue,
              value := min (bucketCount six s conns) float64ExactLimit,
              labelValues := [bucketLabel six, s] } := by
  have hnd := tally_nodup conns
  have key : ∀ (six : Bool) (order : List Nat) (T : List (String × Nat)),
      (T.map Prod.fst).Nodup →
      (∀ s, goMapIndex T s = tallied (bucketCount six s conns)) →
      (m ∈ sentFor desc six (rangeOrder order T) ↔
        ∃ s, bucketCount six s conns ≠ 0 ∧
          m = { desc := desc, valueType := ValueType.GaugeValue,
                value := min (bucketCount six s conns) float64ExactLimit,
                labelValues := [bucketLabel six, s] }) := by
    intro six order T hT hidx
    simp only [sentFor, List.mem_map, (rangeOrder_perm order T).mem_iff, Prod.exists]
    constructor
    · rintro ⟨s, v, hmem, rfl⟩
      have := (mem_iff_goMapIndex T hT s v).1 hmem
      rw [hidx s] at this
      unfold tallied at this
      split at this
      · simp at this
      · rename_i hne
        simp only [Option.some.injEq] at this
        exact ⟨s, hne, by rw [this]⟩
    · rintro ⟨s, hne, rfl⟩
      refine ⟨s, min (bucketCount six s conns) float64ExactLimit, ?_, rfl⟩
      rw [mem_iff_goMapIndex T hT, hidx s]
      simp [tallied, hne]
  rw [List.mem_append,
    key false order4 _ hnd.1 (fun s => (tally_index conns s).1),
    key true order6 _ hnd.2 (fun s => (tally_index conns s).2)]
  constructor
  · rintro (⟨s, h⟩ | ⟨s, h⟩)
    · exact ⟨false, s, h⟩
    · exact ⟨true, s, h⟩
  · rintro ⟨six, s, h⟩
    cases six
    · exact Or.inl ⟨s, h⟩
    · exact Or.inr ⟨s, h⟩

theorem rangeOrder_singleton {α : Type} (order : List Nat) (x : α) :
    rangeOrder order [x] = [x] := by
  cases order with
  | nil => rfl
  | cons k ks =>
    have h : rangeOrder ks ([] : List α) = [] := by cases ks <;> rfl
    simp [rangeOrder, h]

theorem descriptor_labels (ns : String) :
    (NewTCPLocalCollector ns).1.Connections.variableLabels.length = 2 := rfl

theorem state_of_bucketCount_pos (six : Bool) (s : String) (conns : List ConnectionStat)
    (h : bucketCount six s conns ≠ 0) : s ∈ stateLabels := by
  have hpos : 0 < bucketCount six s conns := Nat.pos_of_ne_zero h
  obtain ⟨con, -, hcon⟩ := List.countP_pos_iff.1 hpos
  simp only [Bool.and_eq_true, decide_eq_true_eq] at hcon
  have hmem := mem_of_goMapIndex tcpStateMapping con.Status s hcon.2
  have hall : ∀ p ∈ tcpStateMapping, p.2 ∈ stateLabels := by decide
  exact hall _ hmem

theorem bucketCount_le_length (six : Bool) (s : String) (conns : List ConnectionStat) :
    bucketCount six s conns ≤ conns.length :=
  List.countP_le_length _

theorem le_sum_of_goMapIndex (m : List (String × Nat)) (k : String) :
    (goMapIndex m k).getD 0 ≤ (m.map Prod.snd).sum := by
  induction m with
  | nil => simp [goMapIndex]
  | cons p rest ih =>
    obtain ⟨k', v⟩ := p
    by_cases hk : k = k'
    · simp [goMapIndex, hk]
    · simp only [goMapIndex, hk, if_false, List.map_cons, List.sum_cons]
      omega

theorem sum_goMapIncr (m : List (String × Nat)) (k : String)
    (h : (goMapIndex m k).getD 0 < float64ExactLimit) :
    ((goMapIncr m k).map Prod.snd).sum = (m.map Prod.snd).sum + 1 := by
  induction m with
  | nil => simp [goMapIncr, float64AddOne, float64ExactLimit]
  | cons p rest ih =>
    obtain ⟨k', v⟩ := p
    by_cases hk : k = k'
    · simp only [goMapIndex, hk, if_true, Option.getD_some] at h
      simp only [goMapIncr, hk, if_true, List.map_cons, List.sum_cons, float64AddOne, h]
      omega
    · simp only [goMapIndex, hk, if_false] at h
      simp only [goMapIncr, hk, if_false, List.map_cons, List.sum_cons, ih h]
      omega

theorem recognizedCount_le_length (conns : List ConnectionStat) :
    recognizedCount conns ≤ conns.length :=
  List.countP_le_length _

theorem tally_sum (conns : List ConnectionStat) (hlen : conns.length ≤ float64ExactLimit) :
    ((conns.foldl tallyStep ([], [])).1.map Prod.snd).sum +
      ((conns.foldl tallyStep ([], [])).2.map Prod.snd).sum = recognizedCount conns := by
  induction conns using List.reverseRecOn with
  | nil => simp [recognizedCount]
  | append_singleton l con ih =>
    simp only [List.length_append, List.length_singleton] at hlen
    have ih' := ih (by omega)
    have hle := recognizedCount_le_length l
    rw [List.foldl_append, List.foldl_cons, List.foldl_nil]
    simp only [recognizedCount, List.countP_append, List.countP_cons, List.countP_nil,
      Nat.zero_add]
    simp only [recognizedCount] at ih' hle
    generalize l.foldl tallyStep ([], []) = T at ih' ⊢
    unfold tallyStep
    cases hst : goMapIndex tcpStateMapping con.Status with
    | none => simpa using ih'
    | some st =>
      by_cases hf : con.Family = AF_INET6
      · have hb := le_sum_of_goMapIndex T.2 st
        simp only [hf, if_true, Option.isSome_some]
        rw [sum_goMapIncr T.2 st (by omega)]
        omega
      · have hb := le_sum_of_goMapIndex T.1 st
        simp only [hf, if_false, Option.isSome_some, if_true]
        rw [sum_goMapIncr T.1 st (by omega)]
        omega

theorem sentFor_values (desc : Desc) (six : Bool) (entries : List (String × Nat)) :
    (sentFor desc six entries).map Metric.value = entries.map Prod.snd := by
  simp [sentFor, Function.comp_def]

theorem sentFor_perm (desc : Desc) (conns : List ConnectionStat)
    (order4 order6 : List Nat) :
    (sentFor desc false (rangeOrder order4 (conns.foldl tallyStep ([], [])).1) ++
      sentFor desc true (rangeOrder order6 (conns.foldl tallyStep ([], [])).2)).Perm
    (sentFor desc false (conns.foldl tallyStep ([], [])).1 ++
      sentFor desc true (conns.foldl tallyStep ([], [])).2) :=
  List.Perm.append ((rangeOrder_perm _ _).map _) ((rangeOrder_perm _ _).map _)

theorem tallyStep_unrecognized (counts : List (String × Nat) × List (String × Nat))
    (con : ConnectionStat) (h : con.Status ∉ tcpStateMapping.map Prod.fst) :
    tallyStep counts con = counts := by
  simp [tallyStep, goMapIndex_eq_none_of_not_mem tcpStateMapping con.Status h]

theorem tally_filter (conns : List ConnectionStat)
    (counts : List (String × Nat) × List (String × Nat)) :
    (conns.filter (fun con => decide (con.Status ∈ tcpStateMapping.map Prod.fst))).foldl
      tallyStep counts = conns.foldl tallyStep counts := by
  induction conns generalizing counts with
  | nil => rfl
  | cons con rest ih =>
    by_cases h : con.Status ∈ tcpStateMapping.map Prod.fst
    · simp only [List.filter_cons, h, decide_True, if_true, List.foldl_cons, ih]
    · have hstep := tallyStep_unrecognized counts con h
      simp only [List.filter_cons, h, decide_False, List.foldl_cons, hstep]
      exact ih counts

theorem tally_keys_length (conns : List ConnectionStat) :
    (conns.foldl tallyStep ([], [])).1.length ≤ 5 ∧
    (conns.foldl tallyStep ([], [])).2.length ≤ 5 := by
  have hnd := tally_nodup conns
  have key : ∀ (six : Bool) (T : List (String × Nat)), (T.map Prod.fst).Nodup →
      (∀ s, goMapIndex T s = tallied (bucketCount six s conns)) → T.length ≤ 5 := by
    intro six T hT hidx
    have hsub : T.map Prod.fst ⊆ stateLabels := by
      intro k hk
      obtain ⟨⟨k', v⟩, hmem, rfl⟩ := List.mem_map.1 hk
      have h1 := (mem_iff_goMapIndex T hT k' v).1 hmem
      rw [hidx k'] at h1
      apply state_of_bucketCount_pos six k' conns
      intro hz
      simp [tallied, hz] at h1
    have := (List.subperm_of_subset hT hsub).length_le
    simpa [stateLabels] using this
  exact ⟨key false _ hnd.1 (fun s => (tally_index conns s).1),
    key true _ hnd.2 (fun s => (tally_index conns s).2)⟩

theorem sentFor_labels_nodup (desc : Desc) (conns : List ConnectionStat) :
    ((sentFor desc false (conns.foldl tallyStep ([], [])).1 ++
      sentFor desc true (conns.foldl tallyStep ([], [])).2).map Metric.labelValues).Nodup := by
  have hnd := tally_nodup conns
  have hmap : ∀ (six : Bool) (T : List (String × Nat)),
      (sentFor desc six T).map Metric.labelValues =
        (T.map Prod.fst).map (fun k => [bucketLabel six, k]) := by
    intro six T
    simp [sentFor, Function.comp_def]
  have hinj : ∀ six : Bool, Function.Injective (fun k : String => [bucketLabel six, k]) := by
    intro six a b hab
    simpa using hab
  rw [List.map_append, hmap, hmap, List.nodup_append]
  refine ⟨hnd.1.map (hinj false), hnd.2.map (hinj true), ?_⟩
  intro x hx hy
  obtain ⟨a, -, rfl⟩ := List.mem_map.1 hx
  obtain ⟨b, -, hb⟩ := List.mem_map.1 hy
  simp [bucketLabel] at hb

theorem bucketCount_insert (six : Bool) (s : String) (before after : List ConnectionStat)
    (con : ConnectionStat) :
    bucketCount six s (before ++ con :: after) = bucketCount six s (before ++ after) +
      if ((decide (con.Family = AF_INET6) == six) &&
        decide (goMapIndex tcpStateMapping con.Status = some s)) = true then 1 else 0 := by
  simp only [bucketCount, List.countP_append, List.countP_cons]
  omega

theorem bucketLabel_decide (con : ConnectionStat) :
    bucketLabel (decide (con.Family = AF_INET6)) =
      if con.Family = AF_INET6 then "ipv6" else "ipv4" := by
  by_cases h : con.Family = AF_INET6 <;> simp [bucketLabel, h]

theorem bucketLabel_injective (six six' : Bool) (h : bucketLabel six = bucketLabel six') :
    six = six' := by
  cases six <;> cases six' <;> simp_all [bucketLabel]

/-! ## The claims -/

/-- C1. After a successful enumeration, for each family bucket and each state label that at
least one connection of the list falls into, `collect` sends a gauge observation with
labels (family, state) whose value is the number of such connections; on scenario A the
channel receives exactly (ipv4, established) = 2 and (ipv6, listening) = 1. -/
theorem collect_emits_bucket_count {Ctx : Type} (ns : String) (ctx : Ctx) (ch : List Metric)
    (conns : List ConnectionStat) (order4 order6 : List Nat) (six : Bool) (s : String)
    (hlen : conns.length ≤ float64ExactLimit) (hpos : 1 ≤ bucketCount six s conns) :
    (∃ obs, collect (NewTCPLocalCollector ns).1 ctx ch (conns, none) order4 order6 =
          some (ch ++ obs, (NewTCPLocalCollector ns).1.Connections, none) ∧
        { desc := (NewTCPLocalCollector ns).1.Connections,
          valueType := ValueType.GaugeValue,
          value := bucketCount six s conns,
          labelValues := [bucketLabel six, s] } ∈ obs) ∧
      collect (NewTCPLocalCollector ns).1 ctx [] (scenarioA, none) order4 order6 =
        some ([ { desc := (NewTCPLocalCollector ns).1.Connections,
                  valueType := ValueType.GaugeValue, value := 2,
                  labelValues := ["ipv4", "established"] },
                { desc := (NewTCPLocalCollector ns).1.Connections,
                  valueType := ValueType.GaugeValue, value := 1,
                  labelValues := ["ipv6", "listening"] } ],
              (NewTCPLocalCollector ns).1.Connections, none) := by
  constructor
  · refine ⟨_, collect_ok _ (descriptor_labels ns) ctx ch conns order4 order6, ?_⟩
    rw [mem_sentFor_tally]
    refine ⟨six, s, by omega, ?_⟩
    have := bucketCount_le_length six s conns
    rw [Nat.min_eq_left (by omega)]
  · rw [collect_ok _ (descriptor_labels ns)]
    have hT : scenarioA.foldl tallyStep ([], []) =
        ([("established", 2)], [("listening", 1)]) := by decide
    rw [hT]
    simp [rangeOrder_singleton, sentFor, bucketLabel]

/-- Instance of C1: scenario A, bucket ipv4, state established. -/
theorem collect_emits_bucket_count_witness :
    scenarioA.length ≤ float64ExactLimit ∧ 1 ≤ bucketCount false "established" scenarioA ∧
    ((∃ obs, collect (NewTCPLocalCollector "windows").1 () [] (scenarioA, none) [] [] =
          some ([] ++ obs, (NewTCPLocalCollector "windows").1.Connections, none) ∧
        { desc := (NewTCPLocalCollector "windows").1.Connections,
          valueType := ValueType.GaugeValue,
          value := bucketCount false "established" scenarioA,
          labelValues := [bucketLabel false, "established"] } ∈ obs) ∧
      collect (NewTCPLocalCollector "windows").1 () [] (scenarioA, none) [] [] =
        some ([ { desc := (NewTCPLocalCollector "windows").1.Connections,
                  valueType := ValueType.GaugeValue, value := 2,
                  labelValues := ["ipv4", "established"] },
                { desc := (NewTCPLocalCollector "windows").1.Connections,
                  valueType := ValueType.GaugeValue, value := 1,
                  labelValues := ["ipv6", "listening"] } ],
              (NewTCPLocalCollector "windows").1.Connections, none)) :=
  ⟨by decide, by decide,
    collect_emits_bucket_count "windows" () [] scenarioA [] [] false "established"
      (by decide) (by decide)⟩

/-- C2. `Collect` returns exactly the error of the enumeration: when the enumeration
failed with `e` it returns `e` and the channel is unchanged, and when the enumeration
succeeded it returns nil, whatever the connection list holds; so the returned error is
non-nil if and only if the enumeration failed. -/
theorem Collect_returns_enumeration_error {Ctx : Type} (ns : String) (ctx : Ctx)
    (ch : List Metric) (conns : List ConnectionStat) (order4 order6 : List Nat) :
    (∀ e : GoError, Collect (NewTCPLocalCollector ns).1 ctx ch (conns, some e) order4 order6 =
        some (ch, some e)) ∧
    (∃ obs, Collect (NewTCPLocalCollector ns).1 ctx ch (conns, none) order4 order6 =
        some (ch ++ obs, none)) ∧
    (∀ err : Option GoError, ∃ ch' ret,
        Collect (NewTCPLocalCollector ns).1 ctx ch (conns, err) order4 order6 =
          some (ch', ret) ∧ (ret ≠ none ↔ err ≠ none)) := by
  have hfail : ∀ e : GoError,
      Collect (NewTCPLocalCollector ns).1 ctx ch (conns, some e) order4 order6 =
        some (ch, some e) := by
    intro e
    simp [Collect, collect]
  have hok : ∃ obs, Collect (NewTCPLocalCollector ns).1 ctx ch (conns, none) order4 order6 =
      some (ch ++ obs, none) := by
    refine ⟨sentFor (NewTCPLocalCollector ns).1.Connections false
        (rangeOrder order4 (conns.foldl tallyStep ([], [])).1) ++
      sentFor (NewTCPLocalCollector ns).1.Connections true
        (rangeOrder order6 (conns.foldl tallyStep ([], [])).2), ?_⟩
    simp only [Collect, collect_ok _ (descriptor_labels ns)]
  refine ⟨hfail, hok, ?_⟩
  intro err
  cases err with
  | none =>
    obtain ⟨obs, h⟩ := hok
    exact ⟨_, none, h, by simp⟩
  | some e => exact ⟨ch, some e, hfail e, by simp⟩

/-- C3. Sparse emission: `collect` sends no observation for a (family, state) pair that no
connection of the list falls into, every value sent is at least 1, and an empty connection
list sends nothing. -/
theorem collect_sparse {Ctx : Type} (ns : String) (ctx : Ctx) (ch : List Metric)
    (conns : List ConnectionStat) (order4 order6 : List Nat) :
    (∃ obs, collect (NewTCPLocalCollector ns).1 ctx ch (conns, none) order4 order6 =
          some (ch ++ obs, (NewTCPLocalCollector ns).1.Connections, none) ∧
        (∀ six s, bucketCount six s conns = 0 →
          ∀ m ∈ obs, m.labelValues ≠ [bucketLabel six, s]) ∧
        (∀ m ∈ obs, 1 ≤ m.value)) ∧
      collect (NewTCPLocalCollector ns).1 ctx ch ([], none) order4 order6 =
        some (ch, (NewTCPLocalCollector ns).1.Connections, none) := by
  constructor
  · refine ⟨_, collect_ok _ (descriptor_labels ns) ctx ch conns order4 order6, ?_, ?_⟩
    · intro six s hzero m hm hlab
      rw [mem_sentFor_tally] at hm
      obtain ⟨six', s', hne, rfl⟩ := hm
      simp only [List.cons.injEq, and_true] at hlab
      have h6 : six' = six := by
        cases six <;> cases six' <;> simp_all [bucketLabel]
      rw [h6, hlab.2] at hne
      exact hne hzero
    · intro m hm
      rw [mem_sentFor_tally] at hm
      obtain ⟨six, s, hne, rfl⟩ := hm
      simp only [float64ExactLimit]
      omega
  · rw [collect_ok _ (descriptor_labels ns)]
    simp [rangeOrder, sentFor]

/-- C7. Closed label sets: every observation `collect` sends has a first label value among
ipv4 and ipv6 and a second label value among the five normalized state labels, and every
value of `tcpStateMapping` is one of those five. -/
theorem collect_labels_closed {Ctx : Type} (ns : String) (ctx : Ctx) (ch : List Metric)
    (conns : List ConnectionStat) (order4 order6 : List Nat) :
    (∃ obs, collect (NewTCPLocalCollector ns).1 ctx ch (conns, none) order4 order6 =
          some (ch ++ obs, (NewTCPLocalCollector ns).1.Connections, none) ∧
        ∀ m ∈ obs, ∃ af ∈ ["ipv4", "ipv6"],
          ∃ s ∈ ["established", "opening", "closing", "time_wait", "listening"],
            m.labelValues = [af, s]) ∧
      (∀ p ∈ tcpStateMapping,
        p.2 ∈ ["established", "opening", "closing", "time_wait", "listening"]) := by
  constructor
  · refine ⟨_, collect_ok _ (descriptor_labels ns) ctx ch conns order4 order6, ?_⟩
    intro m hm
    rw [mem_sentFor_tally] at hm
    obtain ⟨six, s, hne, rfl⟩ := hm
    refine ⟨bucketLabel six, ?_, s, state_of_bucketCount_pos six s conns hne, rfl⟩
    cases six <;> simp [bucketLabel]
  · decide

/-- C4. For a list of connections, the values of the observations `collect` sends add up to
the number of connections whose raw Status is a key of `tcpStateMapping`; when every
connection of the list has such a Status, they add up to the length of the list. -/
theorem collect_sum_eq_recognized {Ctx : Type} (ns : String) (ctx : Ctx) (ch : List Metric)
    (conns : List ConnectionStat) (order4 order6 : List Nat)
    (hlen : conns.length ≤ float64ExactLimit) :
    ∃ obs, collect (NewTCPLocalCollector ns).1 ctx ch (conns, none) order4 order6 =
        some (ch ++ obs, (NewTCPLocalCollector ns).1.Connections, none) ∧
      (obs.map Metric.value).sum = recognizedCount conns ∧
      ((∀ con ∈ conns, (goMapIndex tcpStateMapping con.Status).isSome = true) →
        (obs.map Metric.value).sum = conns.length) := by
  refine ⟨_, collect_ok _ (descriptor_labels ns) ctx ch conns order4 order6, ?_⟩
  have hsum : ((sentFor (NewTCPLocalCollector ns).1.Connections false
        (rangeOrder order4 (conns.foldl tallyStep ([], [])).1) ++
      sentFor (NewTCPLocalCollector ns).1.Connections true
        (rangeOrder order6 (conns.foldl tallyStep ([], [])).2)).map Metric.value).sum =
      recognizedCount conns := by
    rw [((sentFor_perm _ conns order4 order6).map Metric.value).sum_eq, List.map_append,
      List.sum_append, sentFor_values, sentFor_values]
    exact tally_sum conns hlen
  refine ⟨hsum, ?_⟩
  intro hall
  rw [hsum]
  unfold recognizedCount
  rw [List.countP_eq_length]
  exact hall

/-- Instance of C4: the three connections of scenario A are all recognized and the values
sent for them add up to 3. -/
theorem collect_sum_eq_recognized_witness :
    scenarioA.length ≤ float64ExactLimit ∧
    (∀ con ∈ scenarioA, (goMapIndex tcpStateMapping con.Status).isSome = true) ∧
    ∃ obs, collect (NewTCPLocalCollector "windows").1 () [] (scenarioA, none) [] [] =
        some ([] ++ obs, (NewTCPLocalCollector "windows").1.Connections, none) ∧
      (obs.map Metric.value).sum = recognizedCount scenarioA ∧
      (obs.map Metric.value).sum = scenarioA.length :=
  ⟨by decide, by decide,
    match collect_sum_eq_recognized "windows" () [] scenarioA [] [] (by decide) with
    | ⟨obs, hrun, hsum, hall⟩ => ⟨obs, hrun, hsum, hall (by decide)⟩⟩

/-- C5. Connections whose raw Status is not one of the twelve keys of `tcpStateMapping`
are dropped silently: `collect` sends the same observations, up to the order of sending,
for a list and for the list with those connections removed, and returns a nil error for
both; a lone connection in state FOOBAR, or in the lower-case state established, sends
nothing. -/
theorem collect_drops_unrecognized {Ctx : Type} (ns : String) (ctx : Ctx) (ch : List Metric)
    (conns : List ConnectionStat) (order4 order6 order4' order6' : List Nat)
    (family : Nat) :
    (∃ obs obs',
        collect (NewTCPLocalCollector ns).1 ctx ch (conns, none) order4 order6 =
          some (ch ++ obs, (NewTCPLocalCollector ns).1.Connections, none) ∧
        collect (NewTCPLocalCollector ns).1 ctx ch
            (conns.filter (fun con => decide (con.Status ∈
              ["ESTABLISHED", "SYN_SENT", "SYN_RECEIVED", "FIN_WAIT1", "FIN_WAIT2",
               "TIME_WAIT", "CLOSED", "CLOSE_WAIT", "LAST_ACK", "LISTEN", "CLOSING",
               "DELETE"])), none) order4' order6' =
          some (ch ++ obs', (NewTCPLocalCollector ns).1.Connections, none) ∧
        obs.Perm obs') ∧
      tcpStateMapping.map Prod.fst =
        ["ESTABLISHED", "SYN_SENT", "SYN_RECEIVED", "FIN_WAIT1", "FIN_WAIT2",
         "TIME_WAIT", "CLOSED", "CLOSE_WAIT", "LAST_ACK", "LISTEN", "CLOSING", "DELETE"] ∧
      collect (NewTCPLocalCollector ns).1 ctx ch
          ([{ Family := family, Status := "FOOBAR" }], none) order4 order6 =
        some (ch, (NewTCPLocalCollector ns).1.Connections, none) ∧
      collect (NewTCPLocalCollector ns).1 ctx ch
          ([{ Family := family, Status := "established" }], none) order4 order6 =
        some (ch, (NewTCPLocalCollector ns).1.Connections, none) := by
  have hkeys : tcpStateMapping.map Prod.fst =
      ["ESTABLISHED", "SYN_SENT", "SYN_RECEIVED", "FIN_WAIT1", "FIN_WAIT2",
       "TIME_WAIT", "CLOSED", "CLOSE_WAIT", "LAST_ACK", "LISTEN", "CLOSING", "DELETE"] := rfl
  have hlone : ∀ st : String, st ∉ tcpStateMapping.map Prod.fst →
      collect (NewTCPLocalCollector ns).1 ctx ch
          ([{ Family := family, Status := st }], none) order4 order6 =
        some (ch, (NewTCPLocalCollector ns).1.Connections, none) := by
    intro st hst
    rw [collect_ok _ (descriptor_labels ns)]
    have hT : ([{ Family := family, Status := st }] : List ConnectionStat).foldl
        tallyStep ([], []) = ([], []) := by
      simp only [List.foldl_cons, List.foldl_nil]
      exact tallyStep_unrecognized _ _ hst
    rw [hT]
    simp [rangeOrder, sentFor]
  refine ⟨?_, hkeys, hlone "FOOBAR" (by decide), hlone "established" (by decide)⟩
  refine ⟨_, _, collect_ok _ (descriptor_labels ns) ctx ch conns order4 order6,
    collect_ok _ (descriptor_labels ns) ctx ch _ order4' order6', ?_⟩
  rw [← hkeys, tally_filter]
  exact (sentFor_perm _ conns order4 order6).trans (sentFor_perm _ conns order4' order6').symm

/-- C6. Address-family bucketing: a connection with a recognized state adds one to the
observation labelled ipv6 when its Family equals AF_INET6 and to the observation labelled
ipv4 for every other Family code, leaves every other observation as it is without that
connection, and causes no error; the keys of `familyMapping` are AF_INET and AF_INET6,
it maps them to ipv4 and ipv6, and whenever the Family is one of these keys the label the
connection is counted under is the one `familyMapping` gives. -/
theorem collect_family_bucketing {Ctx : Type} (ns : String) (ctx : Ctx) (ch : List Metric)
    (before after : List ConnectionStat) (con : ConnectionStat) (s : String)
    (order4 order6 order4' order6' : List Nat)
    (hstate : goMapIndex tcpStateMapping con.Status = some s)
    (hlen : (before ++ con :: after).length ≤ float64ExactLimit) :
    (∃ obs obs',
        collect (NewTCPLocalCollector ns).1 ctx ch (before ++ after, none) order4 order6 =
          some (ch ++ obs, (NewTCPLocalCollector ns).1.Connections, none) ∧
        collect (NewTCPLocalCollector ns).1 ctx ch (before ++ con :: after, none)
            order4' order6' =
          some (ch ++ obs', (NewTCPLocalCollector ns).1.Connections, none) ∧
        { desc := (NewTCPLocalCollector ns).1.Connections,
          valueType := ValueType.GaugeValue,
          value := bucketCount (decide (con.Family = AF_INET6)) s (before ++ after) + 1,
          labelValues := [if con.Family = AF_INET6 then "ipv6" else "ipv4", s] } ∈ obs' ∧
        (∀ m ∈ obs,
          m.labelValues = [if con.Family = AF_INET6 then "ipv6" else "ipv4", s] →
            m.value = bucketCount (decide (con.Family = AF_INET6)) s (before ++ after)) ∧
        (∀ m, m.labelValues ≠ [if con.Family = AF_INET6 then "ipv6" else "ipv4", s] →
          (m ∈ obs' ↔ m ∈ obs))) ∧
      (∀ af, goMapIndex familyMapping con.Family = some af →
        af = if con.Family = AF_INET6 then "ipv6" else "ipv4") ∧
      familyMapping.map Prod.fst = [AF_INET, AF_INET6] ∧
      goMapIndex familyMapping AF_INET = some "ipv4" ∧
      goMapIndex familyMapping AF_INET6 = some "ipv6" ∧
      (con.Family ∈ familyMapping.map Prod.fst →
        goMapIndex familyMapping con.Family =
          some (if con.Family = AF_INET6 then "ipv6" else "ipv4")) := by
  have hlen' : (before ++ after).length + 1 ≤ float64ExactLimit := by
    simp only [List.length_append, List.length_cons] at hlen ⊢
    omega
  refine ⟨?_, ?_, rfl, rfl, rfl, ?_⟩
  · refine ⟨_, _, collect_ok _ (descriptor_labels ns) ctx ch _ order4 order6,
      collect_ok _ (descriptor_labels ns) ctx ch _ order4' order6', ?_, ?_, ?_⟩
    · rw [mem_sentFor_tally]
      refine ⟨decide (con.Family = AF_INET6), s, ?_, ?_⟩
      · rw [bucketCount_insert]
        simp [hstate]
      · have hle := bucketCount_le_length (decide (con.Family = AF_INET6)) s (before ++ after)
        rw [bucketCount_insert, bucketLabel_decide]
        simp only [hstate, beq_self_eq_true, decide_True, Bool.and_self, if_true]
        rw [Nat.min_eq_left (by omega)]
    · intro m hm hlab
      rw [mem_sentFor_tally] at hm
      obtain ⟨six, s', -, rfl⟩ := hm
      rw [← bucketLabel_decide] at hlab
      simp only [List.cons.injEq, and_true] at hlab
      have h6 := bucketLabel_injective _ _ hlab.1
      have hle := bucketCount_le_length six s' (before ++ after)
      simp only [h6, hlab.2]
      rw [← h6, ← hlab.2]
      exact Nat.min_eq_left (by omega)
    · intro m hlab
      rw [mem_sentFor_tally, mem_sentFor_tally]
      have hcount : ∀ six s', m.labelValues = [bucketLabel six, s'] →
          bucketCount six s' (before ++ con :: after) = bucketCount six s' (before ++ after) := by
        intro six s' hm
        rw [bucketCount_insert]
        have hne : ¬ (((decide (con.Family = AF_INET6) == six) &&
            decide (goMapIndex tcpStateMapping con.Status = some s')) = true) := by
          intro hc
          simp only [hstate, Bool.and_eq_true, beq_iff_eq, decide_eq_true_eq,
            Option.some.injEq] at hc
          apply hlab
          rw [hm, ← hc.1, ← hc.2, bucketLabel_decide]
        rw [if_neg hne, Nat.add_zero]
      constructor
      · rintro ⟨six, s', hne, hm⟩
        have hc := hcount six s' (by rw [hm])
        exact ⟨six, s', by rw [← hc]; exact hne, by rw [← hc]; exact hm⟩
      · rintro ⟨six, s', hne, hm⟩
        have hc := hcount six s' (by rw [hm])
        exact ⟨six, s', by rw [hc]; exact hne, by rw [hc]; exact hm⟩
  · intro af haf
    by_cases h6 : con.Family = AF_INET6
    · simp only [familyMapping, goMapIndex, h6, AF_INET6, AF_INET] at haf
      simp only [h6, if_true]
      simpa using haf.symm
    · by_cases h4 : con.Family = AF_INET
      · simp only [familyMapping, goMapIndex, h4, if_true, Option.some.injEq] at haf
        simp only [h6, if_false]
        exact haf.symm
      · simp [familyMapping, goMapIndex, h4, h6] at haf
  · intro hkey
    simp only [familyMapping, List.map_cons, List.map_nil, List.mem_cons, List.mem_singleton,
      List.not_mem_nil, or_false] at hkey
    rcases hkey with h4 | h6
    · rw [h4]
      rfl
    · rw [h6]
      rfl

/-- Instance of C6: a LISTEN connection of Family AF_INET next to an IPv6 LISTEN
connection. -/
theorem collect_family_bucketing_witness :
    goMapIndex tcpStateMapping "LISTEN" = some "listening" ∧
    ([] ++ ({ Family := AF_INET, Status := "LISTEN" } : ConnectionStat) ::
        [{ Family := AF_INET6, Status := "LISTEN" }]).length ≤ float64ExactLimit ∧
    AF_INET ∈ familyMapping.map Prod.fst ∧
    ((∃ obs obs',
        collect (NewTCPLocalCollector "windows").1 () []
            ([] ++ [{ Family := AF_INET6, Status := "LISTEN" }], none) [] [] =
          some ([] ++ obs, (NewTCPLocalCollector "windows").1.Connections, none) ∧
        collect (NewTCPLocalCollector "windows").1 () []
            ([] ++ { Family := AF_INET, Status := "LISTEN" } ::
              [{ Family := AF_INET6, Status := "LISTEN" }], none) [] [] =
          some ([] ++ obs', (NewTCPLocalCollector "windows").1.Connections, none) ∧
        { desc := (NewTCPLocalCollector "windows").1.Connections,
          valueType := ValueType.GaugeValue,
          value := bucketCount (decide (AF_INET = AF_INET6)) "listening"
            ([] ++ [{ Family := AF_INET6, Status := "LISTEN" }]) + 1,
          labelValues := [if AF_INET = AF_INET6 then "ipv6" else "ipv4", "listening"] }
            ∈ obs' ∧
        (∀ m ∈ obs,
          m.labelValues = [if AF_INET = AF_INET6 then "ipv6" else "ipv4", "listening"] →
            m.value = bucketCount (decide (AF_INET = AF_INET6)) "listening"
              ([] ++ [{ Family := AF_INET6, Status := "LISTEN" }])) ∧
        (∀ m, m.labelValues ≠ [if AF_INET = AF_INET6 then "ipv6" else "ipv4", "listening"] →
          (m ∈ obs' ↔ m ∈ obs))) ∧
      (∀ af, goMapIndex familyMapping AF_INET = some af →
        af = if AF_INET = AF_INET6 then "ipv6" else "ipv4") ∧
      familyMapping.map Prod.fst = [AF_INET, AF_INET6] ∧
      goMapIndex familyMapping AF_INET = some "ipv4" ∧
      goMapIndex familyMapping AF_INET6 = some "ipv6" ∧
      goMapIndex familyMapping AF_INET =
        some (if AF_INET = AF_INET6 then "ipv6" else "ipv4")) :=
  ⟨by decide, by decide, by decide,
    match collect_family_bucketing "windows" () [] []
      [{ Family := AF_INET6, Status := "LISTEN" }] { Family := AF_INET, Status := "LISTEN" }
      "listening" [] [] [] [] (by decide) (by decide) with
    | ⟨hrun, hcond, hkeys, h4, h6, hagree⟩ =>
      ⟨hrun, hcond, hkeys, h4, h6, hagree (by decide)⟩⟩

/-- C8, refuted as stated: the first label dimension of the descriptor is not named
address_family. -/
theorem NewTCPLocalCollector_labels_not_address_family :
    (NewTCPLocalCollector "windows").1.Connections.variableLabels ≠
      ["address_family", "state"] := by
  decide

/-- C8, amended. The descriptor declared by `NewTCPLocalCollector` has exactly two label
dimensions, named af and state in that order, and the constructor returns a nil error. -/
theorem NewTCPLocalCollector_descriptor (ns : String) :
    (NewTCPLocalCollector ns).1.Connections.variableLabels = ["af", "state"] ∧
    (NewTCPLocalCollector ns).1.Connections.variableLabels.length = 2 ∧
    (NewTCPLocalCollector ns).2 = none :=
  ⟨rfl, rfl, rfl⟩

/-- C9. Two invocations of `collect` whose enumeration returned the same result send the
same observations, up to the order of sending, and return the same descriptor and error,
whatever the ScrapeContext arguments, the earlier contents of the channel and the orders in
which the maps are visited. -/
theorem collect_idempotent {Ctx : Type} (ns : String) (ctx ctx' : Ctx)
    (ch ch' : List Metric) (conns : List ConnectionStat) (err : Option GoError)
    (order4 order6 order4' order6' : List Nat) :
    ∃ obs obs',
      collect (NewTCPLocalCollector ns).1 ctx ch (conns, err) order4 order6 =
        some (ch ++ obs, (NewTCPLocalCollector ns).1.Connections, err) ∧
      collect (NewTCPLocalCollector ns).1 ctx' ch' (conns, err) order4' order6' =
        some (ch' ++ obs', (NewTCPLocalCollector ns).1.Connections, err) ∧
      obs.Perm obs' := by
  cases err with
  | some e => exact ⟨[], [], by simp [collect], by simp [collect], List.Perm.refl _⟩
  | none =>
    exact ⟨_, _, collect_ok _ (descriptor_labels ns) ctx ch conns order4 order6,
      collect_ok _ (descriptor_labels ns) ctx' ch' conns order4' order6',
      (sentFor_perm _ conns order4 order6).trans (sentFor_perm _ conns order4' order6').symm⟩

/-- C10. No duplicate series: the observations one invocation of `collect` sends carry
pairwise distinct label pairs, and there are at most 10 of them, however many connections
were enumerated. -/
theorem collect_no_duplicate_series {Ctx : Type} (ns : String) (ctx : Ctx)
    (ch : List Metric) (conns : List ConnectionStat) (order4 order6 : List Nat) :
    ∃ obs, collect (NewTCPLocalCollector ns).1 ctx ch (conns, none) order4 order6 =
        some (ch ++ obs, (NewTCPLocalCollector ns).1.Connections, none) ∧
      (obs.map Metric.labelValues).Nodup ∧ obs.length ≤ 10 := by
  refine ⟨_, collect_ok _ (descriptor_labels ns) ctx ch conns order4 order6, ?_, ?_⟩
  · rw [((sentFor_perm _ conns order4 order6).map Metric.labelValues).nodup_iff]
    exact sentFor_labels_nodup _ conns
  · have hlen := tally_keys_length conns
    rw [(sentFor_perm _ conns order4 order6).length_eq]
    simp only [List.length_append, sentFor, List.length_map]
    omega

end TcpLocal
